import Mathlib


/-!
Verification of the tic-tac-toe engine in `tic_tac_toe.py`.

The source is a 3×3 tic-tac-toe game: a mutable `Grid` (list-of-lists board
of cells `" "`, `"X"`, `"O"` plus incremental mark counters) and a full-depth
minimax search.  We embed it shallowly:

* a cell (a Python string `" "`, `"X"` or `"O"`) becomes `Option Mark`
  (`none` for `" "`, `some m` for `m.value`);
* the board stays a list of lists of cells; Python in-range indexing
  `self.board[row][col]` becomes `cell` (total, with a default that is never
  hit at the in-range coordinates the program uses);
* Python `int` counters become `Int` (they can be decremented below zero by
  `undo_move` in principle, so `Nat` would not be bit-faithful);
* `make_move`, which raises `ValueError` on an occupied cell, returns
  `Except String Grid`; a raise leaves the Python object unchanged, which the
  pure embedding renders by returning no new grid.  Inside the search every
  `make_move` call sits under an `is_valid_move` guard, so the search uses the
  guarded write `apply_move` (the `.ok` branch of `make_move`) directly;
* the mutation of the single grid object during `minimax` / `find_best_move`
  becomes explicit state passing: each function returns the grid it leaves
  behind together with its value, so that the restore-the-board discipline is
  a provable statement rather than an artifact of the embedding;
* the Python recursion terminates because every move fills a cell; Lean gets
  the same bound through a `fuel` argument that dominates the number of empty
  cells (9 always suffices on a 3×3 board, and the out-of-fuel branch is
  unreachable then);
* `float("-inf")` / `float("inf")`, used only as identities of `max` / `min`
  over scores that always lie in `[-1, 1]`, become the integers `-2` / `2`,
  which behave identically there (any value `< -1`, resp. `> 1`, would).
-/

/-- The `Mark` enum of the source: the marks of the two players. -/
inductive Mark where
  | X : Mark
  | O : Mark
deriving DecidableEq, Repr

/-- A board cell: `none` is the empty cell `" "`, `some m` is `m.value`. -/
abbrev Cell := Option Mark

/-- Mirrors `mark.value`: the cell content written for a mark. -/
def Mark.value (m : Mark) : Cell := some m

/-- The `Grid` class: 3×3 board (list of 3 rows of 3 cells) plus the
incrementally maintained mark counters `x_count` and `o_count`. -/
structure Grid where
  board : List (List Cell)
  x_count : Int
  o_count : Int
deriving DecidableEq, Repr

/-- Mirrors `Grid.__init__`: all nine cells empty, both counters zero. -/
def Grid.init : Grid :=
  { board := [[none, none, none], [none, none, none], [none, none, none]],
    x_count := 0,
    o_count := 0 }

/-- Reads `self.board[row][col]` (total: out-of-range reads, which would raise
`IndexError` in Python and never occur in the program, default to empty). -/
def Grid.cell (g : Grid) (row col : Nat) : Cell :=
  (g.board.getD row []).getD col none

/-- Mirrors `Grid.is_valid_move`: the cell is empty. -/
def Grid.is_valid_move (g : Grid) (row col : Nat) : Bool :=
  g.cell row col == none

/-- The write performed by `Grid.make_move` once its guard has passed:
store the mark and bump the counter matching it. -/
def Grid.apply_move (g : Grid) (row col : Nat) (mark : Mark) : Grid :=
  { board := g.board.set row ((g.board.getD row []).set col mark.value),
    x_count := if mark = Mark.X then g.x_count + 1 else g.x_count,
    o_count := if mark = Mark.X then g.o_count else g.o_count + 1 }

/-- Mirrors `Grid.make_move`: raises `ValueError "Invalid move"` on an occupied
cell, otherwise writes the mark and bumps the matching counter. -/
def Grid.make_move (g : Grid) (row col : Nat) (mark : Mark) :
    Except String Grid :=
  if ¬ g.is_valid_move row col then
    Except.error "Invalid move"
  else
    Except.ok (g.apply_move row col mark)

/-- Mirrors `Grid.undo_move`: on a non-empty cell, decrement the counter matching
the mark in the cell (`x_count` for `"X"`, else `o_count`) and clear the cell;
no-op on an empty cell. -/
def Grid.undo_move (g : Grid) (row col : Nat) : Grid :=
  match g.cell row col with
  | none => g
  | some m =>
    { board := g.board.set row ((g.board.getD row []).set col none),
      x_count := if m = Mark.X then g.x_count - 1 else g.x_count,
      o_count := if m = Mark.X then g.o_count else g.o_count - 1 }

/-- One chained comparison `a == b == c != " "` of `is_terminal_state`:
three equal non-empty cells. -/
def Grid.line_same (g : Grid) (a b c : Nat × Nat) : Bool :=
  g.cell a.1 a.2 == g.cell b.1 b.2 &&
  g.cell b.1 b.2 == g.cell c.1 c.2 &&
  g.cell c.1 c.2 != none

/-- Mirrors `all(cell != " " for row in self.board for cell in row)`. -/
def Grid.board_full (g : Grid) : Bool :=
  g.board.all (fun row => row.all (fun cell => cell != none))

/-- Mirrors `Grid.is_terminal_state`: the row, column and diagonal checks of the
source in order (each an early `return True`), then the fullness check. -/
def Grid.is_terminal_state (g : Grid) : Bool :=
  g.line_same (0, 0) (0, 1) (0, 2) ||
  g.line_same (1, 0) (1, 1) (1, 2) ||
  g.line_same (2, 0) (2, 1) (2, 2) ||
  g.line_same (0, 0) (1, 0) (2, 0) ||
  g.line_same (0, 1) (1, 1) (2, 1) ||
  g.line_same (0, 2) (1, 2) (2, 2) ||
  g.line_same (0, 0) (1, 1) (2, 2) ||
  g.line_same (0, 2) (1, 1) (2, 0) ||
  g.board_full

/-- The body of one iteration of the outer loop of `evaluate`: does `mark` own a
completed line?  The eight checks appear in source order (rows, columns,
diagonal, anti-diagonal); the early Python `return` is the disjunction. -/
def Grid.mark_wins (g : Grid) (m : Mark) : Bool :=
  (g.cell 0 0 == m.value && g.cell 0 1 == m.value && g.cell 0 2 == m.value) ||
  (g.cell 1 0 == m.value && g.cell 1 1 == m.value && g.cell 1 2 == m.value) ||
  (g.cell 2 0 == m.value && g.cell 2 1 == m.value && g.cell 2 2 == m.value) ||
  (g.cell 0 0 == m.value && g.cell 1 0 == m.value && g.cell 2 0 == m.value) ||
  (g.cell 0 1 == m.value && g.cell 1 1 == m.value && g.cell 2 1 == m.value) ||
  (g.cell 0 2 == m.value && g.cell 1 2 == m.value && g.cell 2 2 == m.value) ||
  (g.cell 0 0 == m.value && g.cell 1 1 == m.value && g.cell 2 2 == m.value) ||
  (g.cell 0 2 == m.value && g.cell 1 1 == m.value && g.cell 2 0 == m.value)

/-- Mirrors `Grid.evaluate`: the `for mark in (Mark.X, Mark.O)` loop returns
`1 if mark == Mark.X else -1` at the first completed line found, scanning
every line of X before any line of O; `0` if neither player owns a line. -/
def Grid.evaluate (g : Grid) : Int :=
  if g.mark_wins Mark.X then 1
  else if g.mark_wins Mark.O then -1
  else 0

/-- The cell coordinates in the order of
`for row in range(3): for col in range(3)` (row-major). -/
def allCells : List (Nat × Nat) :=
  [(0, 0), (0, 1), (0, 2), (1, 0), (1, 1), (1, 2), (2, 0), (2, 1), (2, 2)]

/-- The `for row ... for col ...` loop body shared by the two
branches: try each remaining cell, threading the grid (`recur` is the
recursive `minimax` call at the next depth; `mark`/`maximizing` select the
X-max or O-min branch; `best` is the running `best_val`). -/
def searchLoop (recur : Grid → Nat → Bool → Grid × Int) (depth : Nat)
    (mark : Mark) (maximizing : Bool) :
    Grid → List (Nat × Nat) → Int → Grid × Int
  | g, [], best => (g, best)
  | g, (row, col) :: rest, best =>
    if g.is_valid_move row col then
      let g1 := g.apply_move row col mark
      let p := recur g1 (depth + 1) (!maximizing)
      let g3 := p.1.undo_move row col
      searchLoop recur depth mark maximizing g3 rest
        (if maximizing then max best p.2 else min best p.2)
    else
      searchLoop recur depth mark maximizing g rest best

/-- Mirrors `minimax(grid, depth, is_maximizing_player)`, state-threaded: returns
the grid it leaves behind and the score.  `fuel` bounds the recursion depth;
the source recursion terminates because each move fills a cell, so any
`fuel` at least the number of empty cells (9 always works) keeps the
out-of-fuel branch unreachable. -/
def minimax : Nat → Grid → Nat → Bool → Grid × Int
  | 0, g, _, _ => (g, 0)
  | fuel + 1, g, depth, is_maximizing_player =>
    if g.is_terminal_state then (g, g.evaluate)
    else if is_maximizing_player then
      searchLoop (minimax fuel) depth Mark.X true g allCells (-2)
    else
      searchLoop (minimax fuel) depth Mark.O false g allCells 2

/-- The loop of `find_best_move`: try X on each empty cell, score it by
`minimax(grid, 0, False)`, undo, and keep the move on a strict improvement
(`val > best_val`). -/
def bestLoop : Grid → List (Nat × Nat) → Int → Option (Nat × Nat) →
    Grid × Option (Nat × Nat)
  | g, [], _, best_move => (g, best_move)
  | g, (row, col) :: rest, best_val, best_move =>
    if g.is_valid_move row col then
      let g1 := g.apply_move row col Mark.X
      let p := minimax 9 g1 0 false
      let g3 := p.1.undo_move row col
      if p.2 > best_val then bestLoop g3 rest p.2 (some (row, col))
      else bestLoop g3 rest best_val best_move
    else
      bestLoop g rest best_val best_move

/-- Mirrors `find_best_move(grid)`, state-threaded: the grid it leaves behind and
the chosen move (`none` when no cell was empty). -/
def find_best_move (g : Grid) : Grid × Option (Nat × Nat) :=
  bestLoop g allCells (-2) none

/-! ### Auxiliary definitions: well-formedness, spec-side predicates,
certificate checkers, play/search reachability, concrete boards. -/

/-- A grid built from its nine cells and the two counters. -/
def mkGrid (c00 c01 c02 c10 c11 c12 c20 c21 c22 : Cell) (x o : Int) : Grid :=
  { board := [[c00, c01, c02], [c10, c11, c12], [c20, c21, c22]],
    x_count := x, o_count := o }

/-- Well-formedness: the board really is 3 rows of 3 cells (as built by
`Grid.__init__` and preserved by every move). -/
def Grid.WF (g : Grid) : Prop :=
  ∃ c00 c01 c02 c10 c11 c12 c20 c21 c22,
    g.board = [[c00, c01, c02], [c10, c11, c12], [c20, c21, c22]]

/-- The 8 winning lines (3 rows, 3 columns, 2 diagonals), as the spec lists
them. -/
def specLines : List ((Nat × Nat) × (Nat × Nat) × (Nat × Nat)) :=
  [((0, 0), (0, 1), (0, 2)), ((1, 0), (1, 1), (1, 2)), ((2, 0), (2, 1), (2, 2)),
   ((0, 0), (1, 0), (2, 0)), ((0, 1), (1, 1), (2, 1)), ((0, 2), (1, 2), (2, 2)),
   ((0, 0), (1, 1), (2, 2)), ((0, 2), (1, 1), (2, 0))]

/-- Spec wording: the line `L` consists of three cells all holding `m`. -/
def Grid.lineIs (g : Grid) (m : Mark) (L : (Nat × Nat) × (Nat × Nat) × (Nat × Nat)) : Prop :=
  g.cell L.1.1 L.1.2 = some m ∧ g.cell L.2.1.1 L.2.1.2 = some m ∧
    g.cell L.2.2.1 L.2.2.2 = some m

/-- Spec wording: some line is a single non-empty mark repeated three times. -/
def Grid.hasCompletedLine (g : Grid) : Prop :=
  ∃ m, ∃ L ∈ specLines, g.lineIs m L

/-- Enumeration of the two marks, for decidability of spec predicates. -/
instance : Fintype Mark where
  elems := {Mark.X, Mark.O}
  complete := fun m => by cases m <;> simp

/-- Decidability of the three-cell line predicate. -/
instance (g : Grid) (m : Mark) (L : (Nat × Nat) × (Nat × Nat) × (Nat × Nat)) :
    Decidable (g.lineIs m L) :=
  decidable_of_iff
    (g.cell L.1.1 L.1.2 = some m ∧ g.cell L.2.1.1 L.2.1.2 = some m ∧
      g.cell L.2.2.1 L.2.2.2 = some m) Iff.rfl

/-- Spec wording: every one of the nine cells is non-empty. -/
def Grid.fullSpec (g : Grid) : Prop :=
  ∀ p ∈ allCells, g.cell p.1 p.2 ≠ none

/-- Decidability of the completed-line predicate. -/
instance (g : Grid) : Decidable g.hasCompletedLine :=
  decidable_of_iff (∃ m, ∃ L ∈ specLines, g.lineIs m L) Iff.rfl

/-- Decidability of the fullness predicate. -/
instance (g : Grid) : Decidable g.fullSpec :=
  decidable_of_iff (∀ p ∈ allCells, g.cell p.1 p.2 ≠ none) Iff.rfl

/-- The empty cells of `g` in the row-major scan order of `find_best_move`. -/
def Grid.options (g : Grid) : List (Nat × Nat) :=
  allCells.filter (fun p => g.is_valid_move p.1 p.2)

/-- The score `find_best_move` computes for a candidate cell: apply X there
and run `minimax(grid, 0, False)`. -/
def Grid.score (g : Grid) (p : Nat × Nat) : Int :=
  (minimax 9 (g.apply_move p.1 p.2 Mark.X) 0 false).2

/-- The accumulator recursion of `find_best_move` over the already-scored
candidates: keep a move exactly on a strict improvement. -/
def pureLoop : List ((Nat × Nat) × Int) → Int → Option (Nat × Nat) → Option (Nat × Nat)
  | [], _, best_move => best_move
  | e :: rest, best_val, best_move =>
    if e.2 > best_val then pureLoop rest e.2 (some e.1)
    else pureLoop rest best_val best_move

/-- The leftmost entry of maximal score (ties keep the earlier entry). -/
def bestAux : List ((Nat × Nat) × Int) → Option ((Nat × Nat) × Int)
  | [] => none
  | e :: rest =>
    match bestAux rest with
    | none => some e
    | some b => if b.2 > e.2 then some b else some e

/-- Static try-order for the certificate checkers: center, corners, edges.
This only orders the search for a certifying move; it carries no claim of
its own. -/
def prefCells : List (Nat × Nat) :=
  [(1, 1), (0, 0), (0, 2), (2, 0), (2, 2), (0, 1), (1, 0), (1, 2), (2, 1)]

/-- For each cell, the other two cells of every line through it. -/
def linesThrough : Nat × Nat → List ((Nat × Nat) × (Nat × Nat))
  | (0, 0) => [((0, 1), (0, 2)), ((1, 0), (2, 0)), ((1, 1), (2, 2))]
  | (0, 1) => [((0, 0), (0, 2)), ((1, 1), (2, 1))]
  | (0, 2) => [((0, 0), (0, 1)), ((1, 2), (2, 2)), ((1, 1), (2, 0))]
  | (1, 0) => [((1, 1), (1, 2)), ((0, 0), (2, 0))]
  | (1, 1) => [((1, 0), (1, 2)), ((0, 1), (2, 1)), ((0, 0), (2, 2)), ((0, 2), (2, 0))]
  | (1, 2) => [((1, 0), (1, 1)), ((0, 2), (2, 2))]
  | (2, 0) => [((2, 1), (2, 2)), ((0, 0), (1, 0)), ((0, 2), (1, 1))]
  | (2, 1) => [((2, 0), (2, 2)), ((0, 1), (1, 1))]
  | (2, 2) => [((2, 0), (2, 1)), ((0, 2), (1, 2)), ((0, 0), (1, 1))]
  | _ => []

/-- Would placing `me` at `p` complete a line for `me`? (Ordering heuristic
for the checkers only.) -/
def winningCell (g : Grid) (me : Mark) (p : Nat × Nat) : Bool :=
  (linesThrough p).any fun q =>
    g.cell q.1.1 q.1.2 == some me && g.cell q.2.1 q.2.2 == some me

/-- The opposing mark. -/
def Mark.other : Mark → Mark
  | Mark.X => Mark.O
  | Mark.O => Mark.X

/-- Empty cells ordered for the certificate search: immediate wins of `me`
first, then blocks of the opponent, then the static preference order. -/
def tryOrder (g : Grid) (me : Mark) : List (Nat × Nat) :=
  let avail := prefCells.filter (fun p => g.is_valid_move p.1 p.2)
  (avail.filter fun p => winningCell g me p) ++
  (avail.filter fun p => !winningCell g me p && winningCell g me.other p) ++
  (avail.filter fun p => !winningCell g me p && !winningCell g me.other p)

/-- Certificate checker for an upper bound on the minimax value: at a
terminal board, test the evaluation; at a maximizing board, every empty cell
must stay bounded; at a minimizing board, some move (searched in `tryOrder`)
must certify the bound.  Sound by `checkUB_sound`; the `tryOrder` ordering
only keeps the certificate search small. -/
def checkUB : Nat → Grid → Bool → Int → Bool
  | 0, _, _, _ => false
  | fuel + 1, g, maximizing, v =>
    if g.is_terminal_state then decide (g.evaluate ≤ v)
    else if maximizing then
      allCells.all fun p =>
        !g.is_valid_move p.1 p.2 || checkUB fuel (g.apply_move p.1 p.2 Mark.X) false v
    else
      (tryOrder g Mark.O).any fun p =>
        checkUB fuel (g.apply_move p.1 p.2 Mark.O) true v

/-- Certificate checker for a lower bound on the minimax value (dual of
`checkUB`). -/
def checkLB : Nat → Grid → Bool → Int → Bool
  | 0, _, _, _ => false
  | fuel + 1, g, maximizing, v =>
    if g.is_terminal_state then decide (v ≤ g.evaluate)
    else if maximizing then
      (tryOrder g Mark.X).any fun p =>
        checkLB fuel (g.apply_move p.1 p.2 Mark.X) false v
    else
      allCells.all fun p =>
        !g.is_valid_move p.1 p.2 || checkLB fuel (g.apply_move p.1 p.2 Mark.O) true v

/-- Whose turn it is in the game loop of `TicTacToeUI.main`. -/
inductive Turn where
  | human : Turn
  | ai : Turn

/-- Grids reachable in the game loop: the game starts empty with the human
(playing O) to click; a human move is any valid in-range cell (the pixel
division bounds row and col by 2); the AI moves with `find_best_move` when
the human move did not end the game. -/
inductive Reach : Grid → Turn → Prop where
  | init : Reach Grid.init Turn.human
  | human_move {g : Grid} {row col : Nat} : Reach g Turn.human → row < 3 → col < 3 →
      g.is_valid_move row col = true → Reach (g.apply_move row col Mark.O) Turn.ai
  | ai_move {g : Grid} {row col : Nat} : Reach g Turn.ai → g.is_terminal_state = false →
      (find_best_move g).2 = some (row, col) → Reach (g.apply_move row col Mark.X) Turn.human

/-- Overapproximation of the grids the search mutates `g0` into: starting
from `g0` with `b0` to move, apply alternating marks to valid in-range
cells (`true` plays X, `false` plays O). -/
inductive Explore : Grid → Bool → Grid → Bool → Prop where
  | refl (g : Grid) (b : Bool) : Explore g b g b
  | step {g0 : Grid} {b0 : Bool} {g : Grid} {b : Bool} {row col : Nat} :
      Explore g0 b0 g b → row < 3 → col < 3 → g.is_valid_move row col = true →
      Explore g0 b0 (g.apply_move row col (if b then Mark.X else Mark.O)) (!b)

/-- The scenario board of the spec: X at (0,0) and (0,1), O at (1,0) and
(1,1), built by alternating play from the empty grid. -/
def gC7 : Grid :=
  (((Grid.init.apply_move 0 0 Mark.X).apply_move 1 0 Mark.O).apply_move 0 1
      Mark.X).apply_move 1 1 Mark.O

/-- A board on which both players own a completed line (top row X, middle
row O) — unreachable by alternating play. -/
def gDouble : Grid :=
  mkGrid (some Mark.X) (some Mark.X) (some Mark.X)
    (some Mark.O) (some Mark.O) (some Mark.O) none none none 3 3

/-- A full drawn board (no completed line). -/
def gFull : Grid :=
  mkGrid (some Mark.X) (some Mark.O) (some Mark.X)
    (some Mark.O) (some Mark.O) (some Mark.X)
    (some Mark.X) (some Mark.X) (some Mark.O) 5 4

/-- The grid after the opening move of X at `(row, col)`. -/
def childX (row col : Nat) : Grid := Grid.init.apply_move row col Mark.X

theorem Grid.apply_WF {g : Grid} (hg : g.WF) {row col : Nat} (hr : row < 3)
    (hc : col < 3) (m : Mark) : (g.apply_move row col m).WF := by
  obtain ⟨a, b, c, d, e, f, h, i, j, hb⟩ := hg
  unfold Grid.apply_move Grid.WF
  rw [hb]
  interval_cases row <;> interval_cases col <;>
    exact ⟨_, _, _, _, _, _, _, _, _, rfl⟩

theorem Grid.undo_apply {g : Grid} (hg : g.WF) {row col : Nat} (hr : row < 3)
    (hc : col < 3) (m : Mark) (hv : g.is_valid_move row col = true) :
    (g.apply_move row col m).undo_move row col = g := by
  obtain ⟨a, b, c, d, e, f, h, i, j, hb⟩ := hg
  obtain ⟨bo, x, o⟩ := g
  simp only at hb
  subst hb
  simp only [Grid.is_valid_move, Grid.cell, beq_iff_eq] at hv
  cases m <;> interval_cases row <;> interval_cases col <;>
    simp_all [Grid.apply_move, Grid.undo_move, Grid.cell, Mark.value, List.getD]

theorem allCells_range : ∀ p ∈ allCells, p.1 < 3 ∧ p.2 < 3 := by decide

theorem searchLoop_fst {recur : Grid → Nat → Bool → Grid × Int}
    (hrec : ∀ g2 : Grid, g2.WF → ∀ d b, (recur g2 d b).1 = g2)
    (d : Nat) (mark : Mark) (mx : Bool) :
    ∀ (cells : List (Nat × Nat)) (g : Grid) (best : Int), g.WF →
      (∀ p ∈ cells, p.1 < 3 ∧ p.2 < 3) →
      (searchLoop recur d mark mx g cells best).1 = g := by
  intro cells
  induction cells with
  | nil => intro g best hg _; rfl
  | cons hd tl ih =>
    intro g best hg hran
    obtain ⟨row, col⟩ := hd
    obtain ⟨hr, hc⟩ := hran (row, col) (List.mem_cons_self _ _)
    have htl : ∀ p ∈ tl, p.1 < 3 ∧ p.2 < 3 := fun p hp => hran p (List.mem_cons_of_mem _ hp)
    by_cases hv : g.is_valid_move row col = true
    · simp only [searchLoop, hv, if_true]
      rw [hrec _ (Grid.apply_WF hg hr hc mark), Grid.undo_apply hg hr hc mark hv]
      exact ih g _ hg htl
    · simp only [searchLoop, hv, if_false]
      exact ih g best hg htl

theorem minimax_fst : ∀ (fuel : Nat) (g : Grid), g.WF → ∀ (d : Nat) (b : Bool),
    (minimax fuel g d b).1 = g := by
  intro fuel
  induction fuel with
  | zero => intro g hg d b; rfl
  | succ n ih =>
    intro g hg d b
    by_cases ht : g.is_terminal_state
    · simp [minimax, ht]
    · cases b <;> simp only [minimax, ht, if_false, if_true, Bool.false_eq_true] <;>
        exact searchLoop_fst (fun g2 hg2 d2 b2 => ih g2 hg2 d2 b2) _ _ _ allCells g _ hg allCells_range

theorem bestLoop_fst : ∀ (cells : List (Nat × Nat)) (g : Grid) (bv : Int)
    (bm : Option (Nat × Nat)), g.WF → (∀ p ∈ cells, p.1 < 3 ∧ p.2 < 3) →
    (bestLoop g cells bv bm).1 = g := by
  intro cells
  induction cells with
  | nil => intro g bv bm hg _; rfl
  | cons hd tl ih =>
    intro g bv bm hg hran
    obtain ⟨row, col⟩ := hd
    obtain ⟨hr, hc⟩ := hran (row, col) (List.mem_cons_self _ _)
    have htl : ∀ p ∈ tl, p.1 < 3 ∧ p.2 < 3 := fun p hp => hran p (List.mem_cons_of_mem _ hp)
    by_cases hv : g.is_valid_move row col = true
    · simp only [bestLoop, hv, if_true]
      rw [minimax_fst 9 _ (Grid.apply_WF hg hr hc Mark.X), Grid.undo_apply hg hr hc Mark.X hv]
      by_cases hgt : (minimax 9 (g.apply_move row col Mark.X) 0 false).2 > bv <;> simp [hgt] <;>
        exact ih g _ _ hg htl
    · simp only [bestLoop, hv, if_false]
      exact ih g bv bm hg htl

theorem find_best_move_fst (g : Grid) (hg : g.WF) : (find_best_move g).1 = g :=
  bestLoop_fst allCells g _ _ hg allCells_range

theorem searchLoop_min_le_best {recur : Grid → Nat → Bool → Grid × Int}
    (hrec : ∀ g2 : Grid, g2.WF → ∀ d b, (recur g2 d b).1 = g2) (d : Nat) (mark : Mark) :
    ∀ (cells : List (Nat × Nat)) (g : Grid) (best : Int), g.WF →
      (∀ p ∈ cells, p.1 < 3 ∧ p.2 < 3) →
      (searchLoop recur d mark false g cells best).2 ≤ best := by
  intro cells
  induction cells with
  | nil => intro g best hg _; exact le_refl best
  | cons hd tl ih =>
    intro g best hg hran
    obtain ⟨row, col⟩ := hd
    obtain ⟨hr, hc⟩ := hran (row, col) (List.mem_cons_self _ _)
    have htl : ∀ p ∈ tl, p.1 < 3 ∧ p.2 < 3 := fun p hp => hran p (List.mem_cons_of_mem _ hp)
    by_cases hv : g.is_valid_move row col = true
    · simp only [searchLoop, hv, if_true]
      rw [hrec _ (Grid.apply_WF hg hr hc mark), Grid.undo_apply hg hr hc mark hv]
      exact le_trans (ih g _ hg htl) (min_le_left _ _)
    · simp only [searchLoop, hv, if_false]
      exact ih g best hg htl

theorem searchLoop_min_le_mem {recur : Grid → Nat → Bool → Grid × Int}
    (hrec : ∀ g2 : Grid, g2.WF → ∀ d b, (recur g2 d b).1 = g2) (d : Nat) (mark : Mark) :
    ∀ (cells : List (Nat × Nat)) (g : Grid) (best : Int) (p : Nat × Nat), g.WF →
      (∀ q ∈ cells, q.1 < 3 ∧ q.2 < 3) → p ∈ cells → g.is_valid_move p.1 p.2 = true →
      (searchLoop recur d mark false g cells best).2 ≤
        (recur (g.apply_move p.1 p.2 mark) (d + 1) true).2 := by
  intro cells
  induction cells with
  | nil => intro g best p hg _ hp; exact absurd hp (List.not_mem_nil p)
  | cons hd tl ih =>
    intro g best p hg hran hp hv
    obtain ⟨row, col⟩ := hd
    obtain ⟨hr, hc⟩ := hran (row, col) (List.mem_cons_self _ _)
    have htl : ∀ q ∈ tl, q.1 < 3 ∧ q.2 < 3 := fun q hq => hran q (List.mem_cons_of_mem _ hq)
    rcases List.mem_cons.mp hp with heq | hmem
    · subst heq
      simp only [searchLoop, hv, if_true]
      rw [hrec _ (Grid.apply_WF hg hr hc mark), Grid.undo_apply hg hr hc mark hv]
      exact le_trans (searchLoop_min_le_best hrec d mark tl g _ hg htl) (min_le_right _ _)
    · by_cases hv2 : g.is_valid_move row col = true
      · simp only [searchLoop, hv2, if_true]
        rw [hrec _ (Grid.apply_WF hg hr hc mark), Grid.undo_apply hg hr hc mark hv2]
        exact ih g _ p hg htl hmem hv
      · simp only [searchLoop, hv2, if_false]
        exact ih g best p hg htl hmem hv

theorem searchLoop_min_ge {recur : Grid → Nat → Bool → Grid × Int}
    (hrec : ∀ g2 : Grid, g2.WF → ∀ d b, (recur g2 d b).1 = g2) (d : Nat) (mark : Mark)
    (v : Int) :
    ∀ (cells : List (Nat × Nat)) (g : Grid) (best : Int), g.WF →
      (∀ q ∈ cells, q.1 < 3 ∧ q.2 < 3) → v ≤ best →
      (∀ q ∈ cells, g.is_valid_move q.1 q.2 = true →
        v ≤ (recur (g.apply_move q.1 q.2 mark) (d + 1) true).2) →
      v ≤ (searchLoop recur d mark false g cells best).2 := by
  intro cells
  induction cells with
  | nil => intro g best hg _ hb _; exact hb
  | cons hd tl ih =>
    intro g best hg hran hb hall
    obtain ⟨row, col⟩ := hd
    obtain ⟨hr, hc⟩ := hran (row, col) (List.mem_cons_self _ _)
    have htl : ∀ q ∈ tl, q.1 < 3 ∧ q.2 < 3 := fun q hq => hran q (List.mem_cons_of_mem _ hq)
    have halltl : ∀ q ∈ tl, g.is_valid_move q.1 q.2 = true →
        v ≤ (recur (g.apply_move q.1 q.2 mark) (d + 1) true).2 :=
      fun q hq => hall q (List.mem_cons_of_mem _ hq)
    by_cases hv : g.is_valid_move row col = true
    · simp only [searchLoop, hv, if_true]
      rw [hrec _ (Grid.apply_WF hg hr hc mark), Grid.undo_apply hg hr hc mark hv]
      exact ih g _ hg htl (le_min hb (hall _ (List.mem_cons_self _ _) hv)) halltl
    · simp only [searchLoop, hv, if_false]
      exact ih g best hg htl hb halltl

theorem searchLoop_max_ge_best {recur : Grid → Nat → Bool → Grid × Int}
    (hrec : ∀ g2 : Grid, g2.WF → ∀ d b, (recur g2 d b).1 = g2) (d : Nat) (mark : Mark) :
    ∀ (cells : List (Nat × Nat)) (g : Grid) (best : Int), g.WF →
      (∀ p ∈ cells, p.1 < 3 ∧ p.2 < 3) →
      best ≤ (searchLoop recur d mark true g cells best).2 := by
  intro cells
  induction cells with
  | nil => intro g best hg _; exact le_refl best
  | cons hd tl ih =>
    intro g best hg hran
    obtain ⟨row, col⟩ := hd
    obtain ⟨hr, hc⟩ := hran (row, col) (List.mem_cons_self _ _)
    have htl : ∀ p ∈ tl, p.1 < 3 ∧ p.2 < 3 := fun p hp => hran p (List.mem_cons_of_mem _ hp)
    by_cases hv : g.is_valid_move row col = true
    · simp only [searchLoop, hv, if_true]
      rw [hrec _ (Grid.apply_WF hg hr hc mark), Grid.undo_apply hg hr hc mark hv]
      exact le_trans (le_max_left _ _) (ih g _ hg htl)
    · simp only [searchLoop, hv, if_false]
      exact ih g best hg htl

theorem searchLoop_max_ge_mem {recur : Grid → Nat → Bool → Grid × Int}
    (hrec : ∀ g2 : Grid, g2.WF → ∀ d b, (recur g2 d b).1 = g2) (d : Nat) (mark : Mark) :
    ∀ (cells : List (Nat × Nat)) (g : Grid) (best : Int) (p : Nat × Nat), g.WF →
      (∀ q ∈ cells, q.1 < 3 ∧ q.2 < 3) → p ∈ cells → g.is_valid_move p.1 p.2 = true →
      (recur (g.apply_move p.1 p.2 mark) (d + 1) false).2 ≤
        (searchLoop recur d mark true g cells best).2 := by
  intro cells
  induction cells with
  | nil => intro g best p hg _ hp; exact absurd hp (List.not_mem_nil p)
  | cons hd tl ih =>
    intro g best p hg hran hp hv
    obtain ⟨row, col⟩ := hd
    obtain ⟨hr, hc⟩ := hran (row, col) (List.mem_cons_self _ _)
    have htl : ∀ q ∈ tl, q.1 < 3 ∧ q.2 < 3 := fun q hq => hran q (List.mem_cons_of_mem _ hq)
    rcases List.mem_cons.mp hp with heq | hmem
    · subst heq
      simp only [searchLoop, hv, if_true]
      rw [hrec _ (Grid.apply_WF hg hr hc mark), Grid.undo_apply hg hr hc mark hv]
      exact le_trans (le_max_right _ _) (searchLoop_max_ge_best hrec d mark tl g _ hg htl)
    · by_cases hv2 : g.is_valid_move row col = true
      · simp only [searchLoop, hv2, if_true]
        rw [hrec _ (Grid.apply_WF hg hr hc mark), Grid.undo_apply hg hr hc mark hv2]
        exact ih g _ p hg htl hmem hv
      · simp only [searchLoop, hv2, if_false]
        exact ih g best p hg htl hmem hv

theorem searchLoop_max_le {recur : Grid → Nat → Bool → Grid × Int}
    (hrec : ∀ g2 : Grid, g2.WF → ∀ d b, (recur g2 d b).1 = g2) (d : Nat) (mark : Mark)
    (v : Int) :
    ∀ (cells : List (Nat × Nat)) (g : Grid) (best : Int), g.WF →
      (∀ q ∈ cells, q.1 < 3 ∧ q.2 < 3) → best ≤ v →
      (∀ q ∈ cells, g.is_valid_move q.1 q.2 = true →
        (recur (g.apply_move q.1 q.2 mark) (d + 1) false).2 ≤ v) →
      (searchLoop recur d mark true g cells best).2 ≤ v := by
  intro cells
  induction cells with
  | nil => intro g best hg _ hb _; exact hb
  | cons hd tl ih =>
    intro g best hg hran hb hall
    obtain ⟨row, col⟩ := hd
    obtain ⟨hr, hc⟩ := hran (row, col) (List.mem_cons_self _ _)
    have htl : ∀ q ∈ tl, q.1 < 3 ∧ q.2 < 3 := fun q hq => hran q (List.mem_cons_of_mem _ hq)
    have halltl : ∀ q ∈ tl, g.is_valid_move q.1 q.2 = true →
        (recur (g.apply_move q.1 q.2 mark) (d + 1) false).2 ≤ v :=
      fun q hq => hall q (List.mem_cons_of_mem _ hq)
    by_cases hv : g.is_valid_move row col = true
    · simp only [searchLoop, hv, if_true]
      rw [hrec _ (Grid.apply_WF hg hr hc mark), Grid.undo_apply hg hr hc mark hv]
      exact ih g _ hg htl (max_le hb (hall _ (List.mem_cons_self _ _) hv)) halltl
    · simp only [searchLoop, hv, if_false]
      exact ih g best hg htl hb halltl

theorem prefCells_sub : ∀ p ∈ prefCells, p ∈ allCells := by decide

theorem tryOrder_mem {g : Grid} {me : Mark} {p : Nat × Nat} (hp : p ∈ tryOrder g me) :
    p ∈ allCells ∧ g.is_valid_move p.1 p.2 = true := by
  have havail : ∀ q : (Nat × Nat) → Bool,
      p ∈ (prefCells.filter (fun r => g.is_valid_move r.1 r.2)).filter q →
      p ∈ allCells ∧ g.is_valid_move p.1 p.2 = true := by
    intro q h
    obtain ⟨hm, _⟩ := List.mem_filter.mp h
    obtain ⟨hm2, hv⟩ := List.mem_filter.mp hm
    exact ⟨prefCells_sub p hm2, hv⟩
  unfold tryOrder at hp
  rcases List.mem_append.mp hp with h | h
  · rcases List.mem_append.mp h with h2 | h2
    · exact havail _ h2
    · exact havail _ h2
  · exact havail _ h

theorem checkUB_sound : ∀ (fuel : Nat) (g : Grid) (d : Nat) (mx : Bool) (v : Int),
    g.WF → -2 ≤ v → checkUB fuel g mx v = true → (minimax fuel g d mx).2 ≤ v := by
  intro fuel
  induction fuel with
  | zero => intro g d mx v _ _ h; exact absurd h (by simp [checkUB])
  | succ n ih =>
    intro g d mx v hg hv h
    cases ht : g.is_terminal_state with
    | true =>
      rw [checkUB, ht] at h
      simp only [if_true] at h
      simp only [minimax, ht, if_true]
      exact of_decide_eq_true h
    | false =>
      have hrec : ∀ g2 : Grid, g2.WF → ∀ d2 b2, (minimax n g2 d2 b2).1 = g2 :=
        fun g2 hg2 d2 b2 => minimax_fst n g2 hg2 d2 b2
      rw [checkUB, ht] at h
      simp only [Bool.false_eq_true, if_false] at h
      simp only [minimax, ht, Bool.false_eq_true, if_false]
      cases mx with
      | true =>
        simp only [if_true, List.all_eq_true] at h
        simp only [if_true]
        refine searchLoop_max_le hrec d Mark.X v allCells g (-2) hg allCells_range hv ?_
        intro q hq hqv
        have h2 := h q hq
        rw [hqv] at h2
        simp only [Bool.not_true, Bool.false_or] at h2
        exact ih _ (d + 1) false v
          (Grid.apply_WF hg (allCells_range q hq).1 (allCells_range q hq).2 Mark.X) hv h2
      | false =>
        simp only [Bool.false_eq_true, if_false, List.any_eq_true] at h
        simp only [Bool.false_eq_true, if_false]
        obtain ⟨q, hq, hcq⟩ := h
        obtain ⟨hqall, hqv⟩ := tryOrder_mem hq
        refine le_trans
          (searchLoop_min_le_mem hrec d Mark.O allCells g 2 q hg allCells_range hqall hqv) ?_
        exact ih _ (d + 1) true v
          (Grid.apply_WF hg (allCells_range q hqall).1 (allCells_range q hqall).2 Mark.O) hv hcq

theorem checkLB_sound : ∀ (fuel : Nat) (g : Grid) (d : Nat) (mx : Bool) (v : Int),
    g.WF → v ≤ 2 → checkLB fuel g mx v = true → v ≤ (minimax fuel g d mx).2 := by
  intro fuel
  induction fuel with
  | zero => intro g d mx v _ _ h; exact absurd h (by simp [checkLB])
  | succ n ih =>
    intro g d mx v hg hv h
    cases ht : g.is_terminal_state with
    | true =>
      rw [checkLB, ht] at h
      simp only [if_true] at h
      simp only [minimax, ht, if_true]
      exact of_decide_eq_true h
    | false =>
      have hrec : ∀ g2 : Grid, g2.WF → ∀ d2 b2, (minimax n g2 d2 b2).1 = g2 :=
        fun g2 hg2 d2 b2 => minimax_fst n g2 hg2 d2 b2
      rw [checkLB, ht] at h
      simp only [Bool.false_eq_true, if_false] at h
      simp only [minimax, ht, Bool.false_eq_true, if_false]
      cases mx with
      | true =>
        simp only [if_true, List.any_eq_true] at h
        simp only [if_true]
        obtain ⟨q, hq, hcq⟩ := h
        obtain ⟨hqall, hqv⟩ := tryOrder_mem hq
        refine le_trans ?_
          (searchLoop_max_ge_mem hrec d Mark.X allCells g (-2) q hg allCells_range hqall hqv)
        exact ih _ (d + 1) false v
          (Grid.apply_WF hg (allCells_range q hqall).1 (allCells_range q hqall).2 Mark.X) hv hcq
      | false =>
        simp only [Bool.false_eq_true, if_false, List.all_eq_true] at h
        simp only [Bool.false_eq_true, if_false]
        refine searchLoop_min_ge hrec d Mark.O v allCells g 2 hg allCells_range hv ?_
        intro q hq hqv
        have h2 := h q hq
        rw [hqv] at h2
        simp only [Bool.not_true, Bool.false_or] at h2
        exact ih _ (d + 1) true v
          (Grid.apply_WF hg (allCells_range q hq).1 (allCells_range q hq).2 Mark.O) hv h2

theorem evaluate_range (g : Grid) : -1 ≤ g.evaluate ∧ g.evaluate ≤ 1 := by
  unfold Grid.evaluate
  split_ifs <;> norm_num

theorem exists_valid_of_not_terminal {g : Grid} (hg : g.WF)
    (ht : g.is_terminal_state = false) :
    ∃ p ∈ allCells, g.is_valid_move p.1 p.2 = true := by
  have hf : g.board_full = false := by
    cases hb2 : g.board_full with
    | false => rfl
    | true => simp [Grid.is_terminal_state, hb2] at ht
  obtain ⟨a, b, c, d, e, f, h, i, j, hb⟩ := hg
  obtain ⟨bo, x, o⟩ := g
  simp only at hb
  subst hb
  simp only [Grid.board_full, List.all_cons, List.all_nil, Bool.and_true,
    Bool.and_eq_false_iff, bne_eq_false_iff_eq] at hf
  rcases hf with (h1 | h1 | h1) | (h1 | h1 | h1) | (h1 | h1 | h1)
  · exact ⟨(0, 0), by decide, by simp [Grid.is_valid_move, Grid.cell, h1]⟩
  · exact ⟨(0, 1), by decide, by simp [Grid.is_valid_move, Grid.cell, h1]⟩
  · exact ⟨(0, 2), by decide, by simp [Grid.is_valid_move, Grid.cell, h1]⟩
  · exact ⟨(1, 0), by decide, by simp [Grid.is_valid_move, Grid.cell, h1]⟩
  · exact ⟨(1, 1), by decide, by simp [Grid.is_valid_move, Grid.cell, h1]⟩
  · exact ⟨(1, 2), by decide, by simp [Grid.is_valid_move, Grid.cell, h1]⟩
  · exact ⟨(2, 0), by decide, by simp [Grid.is_valid_move, Grid.cell, h1]⟩
  · exact ⟨(2, 1), by decide, by simp [Grid.is_valid_move, Grid.cell, h1]⟩
  · exact ⟨(2, 2), by decide, by simp [Grid.is_valid_move, Grid.cell, h1]⟩

theorem minimax_range : ∀ (fuel : Nat) (g : Grid) (d : Nat) (b : Bool), g.WF → fuel ≠ 0 →
    -1 ≤ (minimax fuel g d b).2 ∧ (minimax fuel g d b).2 ≤ 1 := by
  intro fuel
  induction fuel with
  | zero => intro g d b _ h0; exact absurd rfl h0
  | succ n ih =>
    intro g d b hg _
    cases ht : g.is_terminal_state with
    | true => simpa [minimax, ht] using evaluate_range g
    | false =>
      have hrec : ∀ g2 : Grid, g2.WF → ∀ d2 b2, (minimax n g2 d2 b2).1 = g2 :=
        fun g2 hg2 d2 b2 => minimax_fst n g2 hg2 d2 b2
      obtain ⟨w, hwall, hwv⟩ := exists_valid_of_not_terminal hg ht
      have hchild : ∀ (g2 : Grid), g2.WF → ∀ d2 b2,
          -1 ≤ (minimax n g2 d2 b2).2 ∧ (minimax n g2 d2 b2).2 ≤ 1 := by
        intro g2 hg2 d2 b2
        cases n with
        | zero => simp [minimax]
        | succ k => exact ih g2 d2 b2 hg2 (Nat.succ_ne_zero k)
      have hwWF := Grid.apply_WF hg (allCells_range w hwall).1 (allCells_range w hwall).2
      cases b with
      | true =>
        simp only [minimax, ht, Bool.false_eq_true, if_false, if_true]
        constructor
        · exact le_trans (hchild _ (hwWF Mark.X) (d + 1) false).1
            (searchLoop_max_ge_mem hrec d Mark.X allCells g (-2) w hg allCells_range hwall hwv)
        · refine searchLoop_max_le hrec d Mark.X 1 allCells g (-2) hg allCells_range (by norm_num) ?_
          intro q hq hqv
          exact (hchild _ (Grid.apply_WF hg (allCells_range q hq).1 (allCells_range q hq).2 Mark.X)
            (d + 1) false).2
      | false =>
        simp only [minimax, ht, Bool.false_eq_true, if_false]
        constructor
        · refine searchLoop_min_ge hrec d Mark.O (-1) allCells g 2 hg allCells_range (by norm_num) ?_
          intro q hq hqv
          exact (hchild _ (Grid.apply_WF hg (allCells_range q hq).1 (allCells_range q hq).2 Mark.O)
            (d + 1) true).1
        · exact le_trans
            (searchLoop_min_le_mem hrec d Mark.O allCells g 2 w hg allCells_range hwall hwv)
            (hchild _ (hwWF Mark.O) (d + 1) true).2

theorem bestAux_ne_none : ∀ (e : (Nat × Nat) × Int) (rest : List ((Nat × Nat) × Int)),
    bestAux (e :: rest) ≠ none := by
  intro e rest
  intro hco
  rw [bestAux] at hco
  cases h2 : bestAux rest <;> rw [h2] at hco <;> dsimp only at hco
  · exact Option.noConfusion hco
  · split at hco <;> exact Option.noConfusion hco

theorem bestAux_mem : ∀ (l : List ((Nat × Nat) × Int)) (b : (Nat × Nat) × Int),
    bestAux l = some b → b ∈ l := by
  intro l
  induction l with
  | nil => intro b h; exact absurd h (by simp [bestAux])
  | cons e rest ih =>
    intro b h
    rw [bestAux] at h
    cases hrest : bestAux rest with
    | none =>
      rw [hrest] at h
      dsimp only at h
      simp [(Option.some.inj h).symm]
    | some b2 =>
      rw [hrest] at h
      dsimp only at h
      by_cases hgt : b2.2 > e.2
      · rw [if_pos hgt] at h
        have : b2 = b := Option.some.inj h
        subst this
        exact List.mem_cons_of_mem e (ih b2 hrest)
      · rw [if_neg hgt] at h
        simp [(Option.some.inj h).symm]

theorem bestAux_max : ∀ (l : List ((Nat × Nat) × Int)) (b : (Nat × Nat) × Int),
    bestAux l = some b → ∀ e ∈ l, e.2 ≤ b.2 := by
  intro l
  induction l with
  | nil => intro b _ e he; exact absurd he (List.not_mem_nil e)
  | cons e rest ih =>
    intro b h f hf
    rw [bestAux] at h
    cases hrest : bestAux rest with
    | none =>
      rw [hrest] at h
      dsimp only at h
      have hbe : e = b := Option.some.inj h
      subst hbe
      have hrnil : rest = [] := by
        cases rest with
        | nil => rfl
        | cons e2 r2 => exact absurd hrest (bestAux_ne_none e2 r2)
      subst hrnil
      rcases List.mem_cons.mp hf with heq | hmem
      · subst heq; exact le_refl _
      · exact absurd hmem (List.not_mem_nil f)
    | some b2 =>
      rw [hrest] at h
      dsimp only at h
      by_cases hgt : b2.2 > e.2
      · rw [if_pos hgt] at h
        have hbb : b2 = b := Option.some.inj h
        subst hbb
        rcases List.mem_cons.mp hf with heq | hmem
        · subst heq; exact le_of_lt hgt
        · exact ih b2 hrest f hmem
      · rw [if_neg hgt] at h
        have hbb : e = b := Option.some.inj h
        subst hbb
        rcases List.mem_cons.mp hf with heq | hmem
        · subst heq; exact le_refl _
        · exact le_trans (ih b2 hrest f hmem) (not_lt.mp hgt)

theorem pureLoop_eq : ∀ (l : List ((Nat × Nat) × Int)) (bv : Int) (bm : Option (Nat × Nat)),
    pureLoop l bv bm =
      (match bestAux l with
       | none => bm
       | some b => if b.2 > bv then some b.1 else bm) := by
  intro l
  induction l with
  | nil => intro bv bm; rfl
  | cons e rest ih =>
    intro bv bm
    rw [pureLoop, bestAux]
    cases hrest : bestAux rest with
    | none =>
      have hrnil : rest = [] := by
        cases rest with
        | nil => rfl
        | cons e2 r2 => exact absurd hrest (bestAux_ne_none e2 r2)
      subst hrnil
      by_cases hgt : e.2 > bv <;> simp [hgt, pureLoop]
    | some b =>
      simp only [ih, hrest]
      by_cases h2 : b.2 > e.2 <;> by_cases hgt : e.2 > bv
      · simp [h2, hgt, lt_trans hgt h2]
      · simp [h2, hgt]
      · simp [h2, hgt]
      · simp [h2, hgt, show ¬ b.2 > bv by omega]

theorem find_eq_of_pred_eq {α : Type} : ∀ (l : List α)
    (p q : α → Bool), (∀ x ∈ l, p x = q x) → l.find? p = l.find? q := by
  intro l
  induction l with
  | nil => intro p q _; rfl
  | cons e rest ih =>
    intro p q hpq
    have he := hpq e (List.mem_cons_self _ _)
    cases hp : p e with
    | true =>
      rw [List.find?_cons_of_pos _ hp, List.find?_cons_of_pos _ (he ▸ hp)]
    | false =>
      rw [List.find?_cons_of_neg _ (by simp [hp]), List.find?_cons_of_neg _ (by simp [he ▸ hp])]
      exact ih p q fun x hx => hpq x (List.mem_cons_of_mem _ hx)

theorem bestAux_eq_find : ∀ l : List ((Nat × Nat) × Int),
    bestAux l = l.find? fun e => l.all fun f => decide (f.2 ≤ e.2) := by
  intro l
  induction l with
  | nil => rfl
  | cons e rest ih =>
    by_cases hmax : ∀ f ∈ rest, f.2 ≤ e.2
    · have hpe : ((e :: rest).all fun f => decide (f.2 ≤ e.2)) = true := by
        rw [List.all_eq_true]
        intro f hf
        rcases List.mem_cons.mp hf with heq | hmem
        · subst heq; simp
        · simpa using hmax f hmem
      rw [bestAux]
      simp only [List.find?]
      rw [hpe]
      cases hrest : bestAux rest with
      | none => rfl
      | some b =>
        dsimp only
        rw [if_neg (by exact not_lt.mpr (hmax b (bestAux_mem rest b hrest)))]
    · push_neg at hmax
      obtain ⟨f0, hf0, hlt⟩ := hmax
      have hpe : ¬ ((e :: rest).all fun f => decide (f.2 ≤ e.2)) = true := by
        rw [List.all_eq_true]
        intro hall
        have := hall f0 (List.mem_cons_of_mem _ hf0)
        simp at this
        omega
      have hpe2 : ((e :: rest).all fun f => decide (f.2 ≤ e.2)) = false :=
        eq_false_of_ne_true hpe
      obtain ⟨b, hb⟩ : ∃ b, bestAux rest = some b := by
        cases rest with
        | nil => exact absurd hf0 (List.not_mem_nil f0)
        | cons e2 r2 =>
          cases h3 : bestAux (e2 :: r2) with
          | none => exact absurd h3 (bestAux_ne_none e2 r2)
          | some b => exact ⟨b, rfl⟩
      have hbmax := bestAux_max rest b hb
      rw [bestAux, hb]
      dsimp only
      rw [if_pos (lt_of_lt_of_le hlt (hbmax f0 hf0))]
      have hcong : ∀ x ∈ rest, ((e :: rest).all fun f => decide (f.2 ≤ x.2)) =
          (rest.all fun f => decide (f.2 ≤ x.2)) := by
        intro x hx
        cases hrx : rest.all fun f => decide (f.2 ≤ x.2) with
        | true =>
          rw [List.all_cons, hrx, Bool.and_true]
          rw [List.all_eq_true] at hrx
          have hfx := hrx f0 hf0
          simp only [decide_eq_true_eq] at hfx
          simp only [decide_eq_true_eq]
          omega
        | false => rw [List.all_cons, hrx, Bool.and_false]
      simp only [List.find?]
      rw [hpe2]
      dsimp only
      rw [find_eq_of_pred_eq rest _ _ hcong, ← ih, hb]

theorem pureLoop_spec (l : List ((Nat × Nat) × Int)) (hl : ∀ e ∈ l, -2 < e.2) :
    pureLoop l (-2) none =
      (l.find? fun e => l.all fun f => decide (f.2 ≤ e.2)).map Prod.fst := by
  rw [pureLoop_eq, ← bestAux_eq_find]
  cases haux : bestAux l with
  | none => rfl
  | some b =>
    dsimp only
    rw [if_pos (hl b (bestAux_mem l b haux))]
    rfl

theorem bestLoop_eq_pure : ∀ (cells : List (Nat × Nat)) (g : Grid), g.WF →
    (∀ p ∈ cells, p.1 < 3 ∧ p.2 < 3) → ∀ (bv : Int) (bm : Option (Nat × Nat)),
    bestLoop g cells bv bm =
      (g, pureLoop ((cells.filter fun p => g.is_valid_move p.1 p.2).map
        fun p => (p, g.score p)) bv bm) := by
  intro cells
  induction cells with
  | nil => intro g _ _ bv bm; rfl
  | cons hd tl ih =>
    intro g hg hran bv bm
    obtain ⟨row, col⟩ := hd
    obtain ⟨hr, hc⟩ := hran (row, col) (List.mem_cons_self _ _)
    have htl : ∀ p ∈ tl, p.1 < 3 ∧ p.2 < 3 := fun p hp => hran p (List.mem_cons_of_mem _ hp)
    by_cases hv : g.is_valid_move row col = true
    · have hfil : List.filter (fun p => g.is_valid_move p.1 p.2) ((row, col) :: tl) =
          (row, col) :: List.filter (fun p => g.is_valid_move p.1 p.2) tl := by
        simp [List.filter_cons, hv]
      simp only [bestLoop, hv, if_true, hfil, List.map_cons]
      rw [minimax_fst 9 _ (Grid.apply_WF hg hr hc Mark.X), Grid.undo_apply hg hr hc Mark.X hv]
      simp only [pureLoop]
      by_cases hgt : (minimax 9 (g.apply_move row col Mark.X) 0 false).2 > bv
      · rw [if_pos hgt, if_pos (show g.score (row, col) > bv from hgt), ih g hg htl]
        rfl
      · rw [if_neg hgt, if_neg (show ¬ g.score (row, col) > bv from hgt), ih g hg htl]
    · have hfil : List.filter (fun p => g.is_valid_move p.1 p.2) ((row, col) :: tl) =
          List.filter (fun p => g.is_valid_move p.1 p.2) tl := by
        simp [List.filter_cons, hv]
      simp only [bestLoop, hv, if_false, hfil]
      exact ih g hg htl bv bm

theorem scored_all (l : List (Nat × Nat)) (s : Nat × Nat → Int) (v : Int) :
    ((l.map fun q => (q, s q)).all fun f => decide (f.2 ≤ v)) =
      l.all fun q => decide (s q ≤ v) := by
  induction l with
  | nil => rfl
  | cons e rest ih => simp only [List.map_cons, List.all_cons, ih]

theorem scored_find (l : List (Nat × Nat)) (s : Nat × Nat → Int)
    (pr : (Nat × Nat) × Int → Bool) :
    ((l.map fun q => (q, s q)).find? pr).map Prod.fst =
      l.find? fun q => pr (q, s q) := by
  induction l with
  | nil => rfl
  | cons e rest ih =>
    simp only [List.map_cons, List.find?]
    cases hp : pr (e, s e) <;> dsimp only
    · exact ih
    · rfl

theorem fbm_spec (g : Grid) (hg : g.WF) :
    (find_best_move g).2 =
      g.options.find? fun p => g.options.all fun q => decide (g.score q ≤ g.score p) := by
  have hscores : ∀ e ∈ (g.options.map fun p => (p, g.score p)), -2 < e.2 := by
    intro e he
    obtain ⟨p, hp, rfl⟩ := List.mem_map.mp he
    have hpall : p ∈ allCells ∧ g.is_valid_move p.1 p.2 = true := by
      have h2 := List.mem_filter.mp hp
      exact ⟨h2.1, h2.2⟩
    have hWF := Grid.apply_WF hg (allCells_range p hpall.1).1 (allCells_range p hpall.1).2 Mark.X
    have h3 := (minimax_range 9 (g.apply_move p.1 p.2 Mark.X) 0 false hWF (by norm_num)).1
    dsimp only [Grid.score]
    omega
  unfold find_best_move
  rw [bestLoop_eq_pure allCells g hg allCells_range (-2) none]
  dsimp only
  rw [show (allCells.filter fun p => g.is_valid_move p.1 p.2) = g.options from rfl]
  rw [pureLoop_spec _ hscores]
  rw [scored_find g.options g.score]
  refine find_eq_of_pred_eq g.options _ _ ?_
  intro p _
  exact scored_all g.options g.score (g.score p)


theorem line_same_iff (g : Grid) (a b c : Nat × Nat) :
    g.line_same a b c = true ↔
      ∃ m, g.cell a.1 a.2 = some m ∧ g.cell b.1 b.2 = some m ∧ g.cell c.1 c.2 = some m := by
  unfold Grid.line_same
  simp only [Bool.and_eq_true, beq_iff_eq, bne_iff_ne]
  constructor
  · rintro ⟨⟨hab, hbc⟩, hc⟩
    cases hCv : g.cell c.1 c.2 with
    | none => exact absurd hCv hc
    | some m =>
      refine ⟨m, ?_, ?_, rfl⟩
      · rw [hab, hbc, hCv]
      · rw [hbc, hCv]
  · rintro ⟨m, h1, h2, h3⟩
    refine ⟨⟨by rw [h1, h2], by rw [h2, h3]⟩, by rw [h3]; simp⟩

theorem board_full_iff {g : Grid} (hg : g.WF) :
    g.board_full = true ↔ g.fullSpec := by
  obtain ⟨a, b, c, d, e, f, h, i, j, hb⟩ := hg
  obtain ⟨bo, x, o⟩ := g
  simp only at hb
  subst hb
  simp [Grid.board_full, Grid.fullSpec, allCells,
    show (⟨[[a, b, c], [d, e, f], [h, i, j]], x, o⟩ : Grid).cell 0 0 = a from rfl,
    show (⟨[[a, b, c], [d, e, f], [h, i, j]], x, o⟩ : Grid).cell 0 1 = b from rfl,
    show (⟨[[a, b, c], [d, e, f], [h, i, j]], x, o⟩ : Grid).cell 0 2 = c from rfl,
    show (⟨[[a, b, c], [d, e, f], [h, i, j]], x, o⟩ : Grid).cell 1 0 = d from rfl,
    show (⟨[[a, b, c], [d, e, f], [h, i, j]], x, o⟩ : Grid).cell 1 1 = e from rfl,
    show (⟨[[a, b, c], [d, e, f], [h, i, j]], x, o⟩ : Grid).cell 1 2 = f from rfl,
    show (⟨[[a, b, c], [d, e, f], [h, i, j]], x, o⟩ : Grid).cell 2 0 = h from rfl,
    show (⟨[[a, b, c], [d, e, f], [h, i, j]], x, o⟩ : Grid).cell 2 1 = i from rfl,
    show (⟨[[a, b, c], [d, e, f], [h, i, j]], x, o⟩ : Grid).cell 2 2 = j from rfl]
  tauto

theorem mark_wins_iff (g : Grid) (m : Mark) :
    g.mark_wins m = true ↔ ∃ L ∈ specLines, g.lineIs m L := by
  simp only [Grid.mark_wins, Mark.value, Bool.or_eq_true, Bool.and_eq_true, beq_iff_eq,
    specLines, Grid.lineIs, List.mem_cons, List.not_mem_nil, or_false]
  aesop

theorem terminal_iff {g : Grid} (hg : g.WF) :
    g.is_terminal_state = true ↔ (g.fullSpec ∨ g.hasCompletedLine) := by
  unfold Grid.is_terminal_state Grid.hasCompletedLine
  simp only [Bool.or_eq_true, line_same_iff, board_full_iff hg, Grid.lineIs, specLines,
    List.mem_cons, List.not_mem_nil, or_false, exists_or, exists_eq_or_imp,
    exists_eq_left]
  aesop

theorem reach_diff : ∀ {g : Grid} {t : Turn}, Reach g t →
    g.x_count - g.o_count = (match t with | Turn.human => 0 | Turn.ai => -1) := by
  intro g t h
  induction h with
  | init => simp [Grid.init]
  | human_move hre hr hc hv ih =>
    simp only [Grid.apply_move] at *
    simp at *
    omega
  | ai_move hre hnt hbm ih =>
    simp only [Grid.apply_move] at *
    simp at *
    omega

theorem explore_diff : ∀ {g0 : Grid} {b0 : Bool} {g : Grid} {b : Bool}, Explore g0 b0 g b →
    g.x_count - g.o_count - (g0.x_count - g0.o_count) =
      (if b0 = b then 0 else if b0 then 1 else -1) := by
  intro g0 b0 g b h
  induction h with
  | refl => simp
  | step hex hr hc hv ih =>
    rename_i b2 row col
    cases b0 <;> cases b2 <;>
      simp only [Grid.apply_move] at * <;> simp at * <;> omega

set_option maxRecDepth 40000 in
theorem cert_children_ub :
    (allCells.all fun p => checkUB 9 (childX p.1 p.2) false 0) = true := by
  decide!

set_option maxRecDepth 40000 in
theorem cert_child00_lb : checkLB 9 (childX 0 0) false 0 = true := by
  decide!

theorem find_head {α : Type} (p : α → Bool) (x : α) (l : List α) (h : p x = true) :
    (x :: l).find? p = some x := by
  simp only [List.find?, h]

theorem cell_apply_same {g : Grid} (hg : g.WF) {row col : Nat} (hr : row < 3) (hc : col < 3)
    (m : Mark) : (g.apply_move row col m).cell row col = m.value := by
  obtain ⟨a, b, c, d, e, f, h, i, j, hb⟩ := hg
  obtain ⟨bo, x, o⟩ := g
  simp only at hb
  subst hb
  interval_cases row <;> interval_cases col <;> rfl

theorem cell_apply_other {g : Grid} (hg : g.WF) {row col r2 c2 : Nat} (hr : row < 3)
    (hc : col < 3) (hr2 : r2 < 3) (hc2 : c2 < 3) (hne : (r2, c2) ≠ (row, col)) (m : Mark) :
    (g.apply_move row col m).cell r2 c2 = g.cell r2 c2 := by
  obtain ⟨a, b, c, d, e, f, h, i, j, hb⟩ := hg
  obtain ⟨bo, x, o⟩ := g
  simp only at hb
  subst hb
  interval_cases row <;> interval_cases col <;> interval_cases r2 <;> interval_cases c2 <;>
    first
    | rfl
    | exact absurd rfl hne

theorem hasLine_iff (g : Grid) : g.hasCompletedLine ↔
    (∃ L ∈ specLines, g.lineIs Mark.X L) ∨ (∃ L ∈ specLines, g.lineIs Mark.O L) := by
  constructor
  · rintro ⟨m, L, hL, hl⟩
    cases m
    · exact Or.inl ⟨L, hL, hl⟩
    · exact Or.inr ⟨L, hL, hl⟩
  · rintro (⟨L, hL, hl⟩ | ⟨L, hL, hl⟩)
    · exact ⟨Mark.X, L, hL, hl⟩
    · exact ⟨Mark.O, L, hL, hl⟩

theorem evaluate_sign (g : Grid) :
    (g.evaluate = 1 ↔ ∃ L ∈ specLines, g.lineIs Mark.X L) ∧
    (g.evaluate = -1 ↔
      ((∃ L ∈ specLines, g.lineIs Mark.O L) ∧ ¬∃ L ∈ specLines, g.lineIs Mark.X L)) ∧
    (¬g.hasCompletedLine → g.evaluate = 0) := by
  have hx := mark_wins_iff g Mark.X
  have ho := mark_wins_iff g Mark.O
  have hline := hasLine_iff g
  unfold Grid.evaluate
  cases hwx : g.mark_wins Mark.X <;> cases hwo : g.mark_wins Mark.O <;> simp_all

/-- C2: a board is terminal exactly when it is full or some of the 8 lines
holds a single non-empty mark repeated three times. -/
theorem C2_terminal_iff_full_or_line : ∀ (x o : Int) (a b c d e f h i j : Cell),
    (mkGrid a b c d e f h i j x o).is_terminal_state = true ↔
      ((mkGrid a b c d e f h i j x o).fullSpec ∨
        (mkGrid a b c d e f h i j x o).hasCompletedLine) :=
  fun x o a b c d e f h i j => terminal_iff ⟨a, b, c, d, e, f, h, i, j, rfl⟩

/-- C3, counterexample: on the (unreachable) board with a completed X row and
a completed O row, `evaluate` returns 1, so the claimed biconditional
"returns -1 exactly when a completed line is all O" fails. -/
theorem C3_counterexample :
    ¬ (∀ (x o : Int) (a b c d e f h i j : Cell),
        (mkGrid a b c d e f h i j x o).hasCompletedLine →
        (((mkGrid a b c d e f h i j x o).evaluate = 1 ↔
            ∃ L ∈ specLines, (mkGrid a b c d e f h i j x o).lineIs Mark.X L) ∧
          ((mkGrid a b c d e f h i j x o).evaluate = -1 ↔
            ∃ L ∈ specLines, (mkGrid a b c d e f h i j x o).lineIs Mark.O L))) := by
  intro hcl
  have h2 := hcl 3 3 (some Mark.X) (some Mark.X) (some Mark.X)
    (some Mark.O) (some Mark.O) (some Mark.O) none none none (by decide)
  exact absurd (h2.2.mpr (by decide)) (by decide)

/-- C3, amended: on a board with a completed line, `evaluate` returns 1 iff
some completed line is all X, and -1 iff some completed line is all O and no
completed line is all X (X is scanned first); on a full board with no
completed line it returns 0. -/
theorem C3_evaluate_sign_amended : ∀ (x o : Int) (a b c d e f h i j : Cell),
    ((mkGrid a b c d e f h i j x o).hasCompletedLine →
      (((mkGrid a b c d e f h i j x o).evaluate = 1 ↔
          ∃ L ∈ specLines, (mkGrid a b c d e f h i j x o).lineIs Mark.X L) ∧
        ((mkGrid a b c d e f h i j x o).evaluate = -1 ↔
          ((∃ L ∈ specLines, (mkGrid a b c d e f h i j x o).lineIs Mark.O L) ∧
            ¬∃ L ∈ specLines, (mkGrid a b c d e f h i j x o).lineIs Mark.X L)))) ∧
    ((mkGrid a b c d e f h i j x o).fullSpec ∧
        ¬(mkGrid a b c d e f h i j x o).hasCompletedLine →
      (mkGrid a b c d e f h i j x o).evaluate = 0) := by
  intro x o a b c d e f h i j
  have hs := evaluate_sign (mkGrid a b c d e f h i j x o)
  exact ⟨fun _ => ⟨hs.1, hs.2.1⟩, fun hf => hs.2.2 hf.2⟩

/-- C3, witness: the amended statement at the double-row board. -/
theorem C3_witness :
    gDouble.evaluate = 1 ↔ ∃ L ∈ specLines, gDouble.lineIs Mark.X L :=
  ((C3_evaluate_sign_amended 3 3 (some Mark.X) (some Mark.X) (some Mark.X)
    (some Mark.O) (some Mark.O) (some Mark.O) none none none).1 (by decide)).1

/-- C4: on an empty in-range cell, `make_move` succeeds with the guarded
write, and `undo_move` on the same coordinates restores the grid
bit-for-bit (same cells, same counters). -/
theorem C4_apply_undo_roundtrip (g : Grid) (hg : g.WF) (row col : Nat) (hr : row < 3)
    (hc : col < 3) (m : Mark) (hv : g.is_valid_move row col = true) :
    g.make_move row col m = Except.ok (g.apply_move row col m) ∧
    (g.apply_move row col m).undo_move row col = g :=
  ⟨by simp [Grid.make_move, hv], Grid.undo_apply hg hr hc m hv⟩

/-- C4, witness: the round trip at the empty board, cell (0,0), mark X. -/
theorem C4_witness : (Grid.init.apply_move 0 0 Mark.X).undo_move 0 0 = Grid.init :=
  (C4_apply_undo_roundtrip Grid.init
    ⟨none, none, none, none, none, none, none, none, none, rfl⟩
    0 0 (by norm_num) (by norm_num) Mark.X (by decide)).2

/-- C5: `minimax` (any fuel, any depth, either mode) and `find_best_move`
leave the grid exactly as it was: the state they return is the input state,
every applied move having been undone. -/
theorem C5_search_preserves_grid (g : Grid) (hg : g.WF) :
    (∀ (fuel depth : Nat) (mx : Bool), (minimax fuel g depth mx).1 = g) ∧
    (find_best_move g).1 = g :=
  ⟨fun fuel depth mx => minimax_fst fuel g hg depth mx, find_best_move_fst g hg⟩

/-- C5, witness: grid preservation at the empty board. -/
theorem C5_witness : (minimax 2 Grid.init 0 true).1 = Grid.init ∧
    (find_best_move Grid.init).1 = Grid.init :=
  ⟨(C5_search_preserves_grid Grid.init
      ⟨none, none, none, none, none, none, none, none, none, rfl⟩).1 2 0 true,
    (C5_search_preserves_grid Grid.init
      ⟨none, none, none, none, none, none, none, none, none, rfl⟩).2⟩

/-- C6: `find_best_move` returns the first cell, in row-major scan order
over the empty cells, whose minimax score is maximal (ties keep the
earliest-scanned cell), and `none` when the board has no empty cell. -/
theorem C6_first_strict_max (g : Grid) (hg : g.WF) :
    (find_best_move g).2 =
      (g.options.find? fun p => g.options.all fun q =>
        decide (g.score q ≤ g.score p)) ∧
    (g.options = [] → (find_best_move g).2 = none) :=
  ⟨fbm_spec g hg, fun hnil => by rw [fbm_spec g hg, hnil]; rfl⟩

/-- C6, witness: on the full drawn board there is no empty cell and
`find_best_move` returns `none`. -/
theorem C6_witness : (find_best_move gFull).2 = none :=
  (C6_first_strict_max gFull
    ⟨some Mark.X, some Mark.O, some Mark.X, some Mark.O, some Mark.O, some Mark.X,
      some Mark.X, some Mark.X, some Mark.O, rfl⟩).2 (by decide)

/-- C8: `make_move` signals the invalid-move error exactly on an occupied
cell (the raise precedes any write, so the pure embedding returns no new
state there); on an empty cell it returns the grid with that one cell set
to the mark, the matching counter incremented, the other counter and all
other cells unchanged. -/
theorem C8_make_move_error_iff_occupied (g : Grid) (hg : g.WF) (row col : Nat)
    (hr : row < 3) (hc : col < 3) (m : Mark) :
    ((∃ e, g.make_move row col m = Except.error e) ↔ g.cell row col ≠ none) ∧
    (g.cell row col = none →
      ∃ g2, g.make_move row col m = Except.ok g2 ∧
        g2.cell row col = m.value ∧
        g2.x_count = (if m = Mark.X then g.x_count + 1 else g.x_count) ∧
        g2.o_count = (if m = Mark.X then g.o_count else g.o_count + 1) ∧
        ∀ r2 c2 : Nat, r2 < 3 → c2 < 3 → (r2, c2) ≠ (row, col) →
          g2.cell r2 c2 = g.cell r2 c2) := by
  constructor
  · cases hcell : g.cell row col <;>
      simp [Grid.make_move, Grid.is_valid_move, hcell]
  · intro hcell
    have hv : g.is_valid_move row col = true := by
      simp [Grid.is_valid_move, hcell]
    refine ⟨g.apply_move row col m, by simp [Grid.make_move, hv],
      cell_apply_same hg hr hc m, rfl, rfl, ?_⟩
    intro r2 c2 hr2 hc2 hne
    exact cell_apply_other hg hr hc hr2 hc2 hne m

/-- C8, witness: the specification of `make_move` at the empty board,
cell (0,0), mark X. -/
theorem C8_witness :
    ∃ g2, Grid.init.make_move 0 0 Mark.X = Except.ok g2 ∧
      g2.cell 0 0 = Mark.X.value ∧
      g2.x_count = (if Mark.X = Mark.X then Grid.init.x_count + 1 else Grid.init.x_count) ∧
      g2.o_count = (if Mark.X = Mark.X then Grid.init.o_count else Grid.init.o_count + 1) ∧
      ∀ r2 c2 : Nat, r2 < 3 → c2 < 3 → (r2, c2) ≠ (0, 0) →
        g2.cell r2 c2 = Grid.init.cell r2 c2 :=
  (C8_make_move_error_iff_occupied Grid.init
    ⟨none, none, none, none, none, none, none, none, none, rfl⟩
    0 0 (by norm_num) (by norm_num) Mark.X).2 (by decide)

/-- C9, counterexample: right after the first human move (O at (0,0)) the
difference `x_count - o_count` is -1, not 0 or 1: in the game loop the human
plays O and moves first, so the invariant claimed by the spec has the sign
reversed. -/
theorem C9_counterexample :
    Reach (Grid.init.apply_move 0 0 Mark.O) Turn.ai ∧
    ¬((Grid.init.apply_move 0 0 Mark.O).x_count -
        (Grid.init.apply_move 0 0 Mark.O).o_count = 0 ∨
      (Grid.init.apply_move 0 0 Mark.O).x_count -
        (Grid.init.apply_move 0 0 Mark.O).o_count = 1) :=
  ⟨Reach.human_move Reach.init (by norm_num) (by norm_num) (by decide), by decide⟩

/-- C9, amended: at every state reachable in the game loop, and at every
state the search explores from a position where the AI is to move, the
difference `x_count - o_count` is -1 or 0 (O moves first; X never leads). -/
theorem C9_count_invariant_amended :
    (∀ (g : Grid) (t : Turn), Reach g t →
      (g.x_count - g.o_count = -1 ∨ g.x_count - g.o_count = 0)) ∧
    (∀ (g g2 : Grid) (b : Bool), Reach g Turn.ai → Explore g true g2 b →
      (g2.x_count - g2.o_count = -1 ∨ g2.x_count - g2.o_count = 0)) := by
  constructor
  · intro g t h
    have hd := reach_diff h
    cases t <;> simp at hd <;> omega
  · intro g g2 b hre hex
    have h1 := reach_diff hre
    have h2 := explore_diff hex
    simp at h1
    cases b <;> simp at h2 <;> omega

/-- C9, witness: the amended invariant at the initial (empty) grid. -/
theorem C9_witness :
    Grid.init.x_count - Grid.init.o_count = -1 ∨
      Grid.init.x_count - Grid.init.o_count = 0 :=
  C9_count_invariant_amended.1 Grid.init Turn.human Reach.init

/-- C10: on any board where both players own a completed line (unreachable
in play), `evaluate` returns 1, because every line of X is scanned before
any line of O. -/
theorem C10_double_win_returns_one : ∀ (x o : Int) (a b c d e f h i j : Cell),
    (∃ L ∈ specLines, (mkGrid a b c d e f h i j x o).lineIs Mark.X L) →
    (∃ L ∈ specLines, (mkGrid a b c d e f h i j x o).lineIs Mark.O L) →
    (mkGrid a b c d e f h i j x o).evaluate = 1 := by
  intro x o a b c d e f h i j hX hO
  exact (evaluate_sign (mkGrid a b c d e f h i j x o)).1.mpr hX

/-- C10, witness: evaluation of the double-row board. -/
theorem C10_witness : gDouble.evaluate = 1 :=
  C10_double_win_returns_one 3 3 (some Mark.X) (some Mark.X) (some Mark.X)
    (some Mark.O) (some Mark.O) (some Mark.O) none none none (by decide) (by decide)


/-- Unfolding equation for the per-move score of `find_best_move`. -/
theorem score_unfold (g : Grid) (row col : Nat) :
    g.score (row, col) = (minimax 9 (g.apply_move row col Mark.X) 0 false).2 := rfl

theorem C1_empty_board_draw :
    (minimax 10 Grid.init 0 true).2 = 0 ∧
    ∃ row col : Nat, (find_best_move Grid.init).2 = some (row, col) ∧
      (minimax 9 (Grid.init.apply_move row col Mark.X) 0 false).2 = 0 := by
  have hWF : Grid.init.WF :=
    ⟨none, none, none, none, none, none, none, none, none, rfl⟩
  have hrec : ∀ g2 : Grid, g2.WF → ∀ d b, (minimax 9 g2 d b).1 = g2 :=
    fun g2 hg2 d b => minimax_fst 9 g2 hg2 d b
  have hub : ∀ row col : Nat, (row, col) ∈ allCells → ∀ d : Nat,
      (minimax 9 (Grid.init.apply_move row col Mark.X) d false).2 ≤ 0 := by
    intro row col hp d
    have hcert := List.all_eq_true.mp cert_children_ub (row, col) hp
    exact checkUB_sound 9 _ d false 0
      (Grid.apply_WF hWF (allCells_range (row, col) hp).1 (allCells_range (row, col) hp).2
        Mark.X) (by norm_num) hcert
  have hlb00 : ∀ d : Nat, 0 ≤ (minimax 9 (Grid.init.apply_move 0 0 Mark.X) d false).2 :=
    fun d => checkLB_sound 9 _ d false 0
      (Grid.apply_WF hWF (show (0 : Nat) < 3 by norm_num) (show (0 : Nat) < 3 by norm_num)
        Mark.X) (by norm_num) cert_child00_lb
  have hNT : Grid.init.is_terminal_state = false := by decide
  have hs00min : (minimax 9 (Grid.init.apply_move 0 0 Mark.X) 0 false).2 = 0 :=
    le_antisymm (hub 0 0 (by decide) 0) (hlb00 0)
  have hs00 : Grid.init.score (0, 0) = 0 := by
    rw [score_unfold Grid.init 0 0]
    exact hs00min
  constructor
  · rw [show (10 : Nat) = 9 + 1 from rfl]
    rw [show minimax (9 + 1) Grid.init 0 true =
        searchLoop (minimax 9) 0 Mark.X true Grid.init allCells (-2) from by
      simp [minimax, hNT]]
    apply le_antisymm
    · exact searchLoop_max_le hrec 0 Mark.X 0 allCells Grid.init (-2) hWF allCells_range
        (by norm_num) (fun q hq _ => hub q.1 q.2 hq 1)
    · exact le_trans (hlb00 1) (searchLoop_max_ge_mem hrec 0 Mark.X allCells Grid.init (-2)
        (0, 0) hWF allCells_range (by decide) (by decide))
  · refine ⟨0, 0, ?_, hs00min⟩
    rw [fbm_spec Grid.init hWF]
    have hopts : Grid.init.options = allCells := by decide
    rw [hopts]
    have hp00 : (allCells.all fun q =>
        decide (Grid.init.score q ≤ Grid.init.score (0, 0))) = true := by
      rw [List.all_eq_true]
      intro q hq
      obtain ⟨qr, qc⟩ := q
      rw [decide_eq_true_eq, hs00, score_unfold Grid.init qr qc]
      exact hub qr qc hq 0
    exact find_head _ (0, 0) [(0, 1), (0, 2), (1, 0), (1, 1), (1, 2), (2, 0), (2, 1), (2, 2)]
      hp00


set_option maxRecDepth 40000 in
/-- C7: on the board with X at (0,0) and (0,1), O at (1,0) and (1,1),
`find_best_move` returns exactly (0,2), completing the winning top row of X. -/
theorem C7_winning_row_move : (find_best_move gC7).2 = some (0, 2) := by
  decide!
